import Mathlib

/-!
Verification of the task execution engine of the `codesweep` repository:
the backoff retrier and duration helpers (`utils.mjs`), the task runner
and its concurrency-bounded scheduler (`runner.mjs`), and the task
collection entry point `executeTasks`.

JavaScript effects (file-system reads, process spawns, clocks, console
output) are modelled as explicit environment records and trace fields;
JS numbers appear as `Nat`/`Int` (`Math.floor` of a quotient is `Int.fdiv`,
the `%` operator is `Int.tmod`).  Timestamps produced by `formatTimestamp`
are treated as opaque environmental strings.
-/

namespace CodeSweep

/-- `calculateDuration` from `utils.mjs`: `Math.floor((endTime - startTime) / 1000)`
with both times in milliseconds, yielding whole seconds. -/
def calculateDuration (startTime endTime : Int) : Int :=
  (endTime - startTime).fdiv 1000

/-- `formatDuration` from `utils.mjs`: renders a duration in seconds as
`"<h>h <m>m <s>s"`, `"<m>m <s>s"` or `"<s>s"`. -/
def formatDuration (durationSeconds : Int) : String :=
  let hours := durationSeconds.fdiv 3600
  let minutes := (durationSeconds.tmod 3600).fdiv 60
  let seconds := durationSeconds.tmod 60
  if hours > 0 then
    toString hours ++ "h " ++ toString minutes ++ "m " ++ toString seconds ++ "s"
  else if minutes > 0 then
    toString minutes ++ "m " ++ toString seconds ++ "s"
  else
    toString seconds ++ "s"

/-- The options object of `retryWithBackoff` (`utils.mjs` lines 128-133),
with the source's default values. -/
structure RetryOptions where
  maxRetries : Nat := 5
  initialDelay : Nat := 1000
  maxDelay : Nat := 30000
  operationName : String := "Operation"
deriving DecidableEq

/-- Console notices emitted by `retryWithBackoff` (lines 144, 153, 154),
abstracted structurally: the failure notice names the operation and the
attempt numbers, the retry notice carries the delay and remaining retries,
the exhaustion notice (line 144, `console.error`) names the operation and
the total attempt count. -/
inductive RetryNotice where
  | attemptFailed (operationName : String) (attemptNumber totalAttempts : Nat)
  | retrying (delayMs remainingRetries : Nat)
  | exhausted (operationName : String) (totalAttempts : Nat)
deriving DecidableEq

/-- Observable trace of one `retryWithBackoff` call: the returned or thrown
result, how many times `fn` was invoked, the backoff delays actually waited
(line 149/156), and the console notices in order. -/
structure RetryTrace (ε α : Type) where
  result : Except ε α
  attempts : Nat
  delays : List Nat
  notices : List RetryNotice

/-- The `for (let attempt = 0; attempt <= maxRetries; attempt++)` loop of
`retryWithBackoff` (lines 137-158).  `fn` is indexed by the attempt number so
that a stateful operation can succeed or fail per attempt.  `remaining`
stands for `maxRetries - attempt`, so `attempt === maxRetries` (line 143) is
`remaining = 0`, and `maxRetries + 1` (the printed total) is
`attempt + remaining + 1`.  The delay of line 149 is
`Math.min(initialDelay * 2 ** attempt, maxDelay)`. -/
def retryGo (fn : Nat → Except ε α) (initialDelay maxDelay : Nat)
    (operationName : String) : (attempt remaining : Nat) → RetryTrace ε α
  | attempt, 0 =>
    match fn attempt with
    | .ok v => ⟨.ok v, 1, [], []⟩
    | .error e => ⟨.error e, 1, [], [.exhausted operationName (attempt + 1)]⟩
  | attempt, r + 1 =>
    match fn attempt with
    | .ok v => ⟨.ok v, 1, [], []⟩
    | .error _ =>
      let delay := min (initialDelay * 2 ^ attempt) maxDelay
      let rest := retryGo fn initialDelay maxDelay operationName (attempt + 1) r
      ⟨rest.result, rest.attempts + 1, delay :: rest.delays,
        .attemptFailed operationName (attempt + 1) (attempt + (r + 1) + 1) ::
          .retrying delay (r + 1) :: rest.notices⟩

/-- `retryWithBackoff` from `utils.mjs` (lines 127-161): run `fn`, and on
failure wait an exponentially growing, capped delay before retrying, up to
`maxRetries` additional attempts; the last error is re-thrown on
exhaustion. -/
def retryWithBackoff (fn : Nat → Except ε α) (options : RetryOptions) :
    RetryTrace ε α :=
  retryGo fn options.initialDelay options.maxDelay options.operationName 0
    options.maxRetries

/-! ### The runner module (`runner.mjs`, `src/unnamed/part_001`) -/

/-- Environment of one `detectClaudePath` call (lines 11-48).
`pathExistsOk p` says whether `fs.pathExists(p)` resolves (rather than
throws); `pathExists p` is its value when it resolves; `whichClaude` is the
trimmed stdout of `bash -ic 'which claude'`, or `none` when that command
fails. -/
structure ClaudeEnv where
  pathExistsOk : String → Bool
  pathExists : String → Bool
  whichClaude : Option String

/-- The candidate file locations checked by `detectClaudePath`
(lines 13-22). -/
def candidatePaths (home : String) : List String :=
  [home ++ "/.claude/local/node_modules/.bin/claude",
   home ++ "/.claude/local/claude",
   home ++ "/.local/bin/claude",
   "/usr/local/bin/claude",
   "/opt/homebrew/bin/claude"]

/-- `detectClaudePath` (lines 11-48): return the first existing candidate
path (a throwing existence check just moves on to the next candidate), then
the `which claude` result if it is nonempty and exists, else the literal
fallback `"claude"` (line 47). -/
def detectClaudePath (home : String) (env : ClaudeEnv) : String :=
  match (candidatePaths home).find? (fun p => env.pathExistsOk p && env.pathExists p) with
  | some p => p
  | none =>
    match env.whichClaude with
    | none => "claude"
    | some detectedPath =>
      if detectedPath != "" && env.pathExistsOk detectedPath
          && env.pathExists detectedPath then
        detectedPath
      else
        "claude"

/-- `path.join(a, b)` for the simple two-component uses in the runner. -/
def pathJoin (a b : String) : String := a ++ "/" ++ b

/-- Character-level embedding of `String.startsWith` (the library version
does not reduce inside proofs). -/
def strStartsWith (s pre : String) : Bool := pre.data.isPrefixOf s.data

/-- Number of characters of a string. -/
def strLength (s : String) : Nat := s.data.length

/-- Character-level embedding of `String.drop`. -/
def strDrop (s : String) (n : Nat) : String := ⟨s.data.drop n⟩

/-- Character-level embedding of `String.trim` / JS `String.prototype.trim`:
remove leading and trailing whitespace. -/
def strTrim (s : String) : String :=
  ⟨((s.data.dropWhile Char.isWhitespace).reverse.dropWhile
      Char.isWhitespace).reverse⟩

/-- Split a character list on a separator character (the pieces between
separators, like `String.split`). -/
def splitOnChar (c : Char) : List Char → List (List Char)
  | [] => [[]]
  | x :: xs =>
    let rest := splitOnChar c xs
    if x = c then [] :: rest
    else
      match rest with
      | [] => [x] :: []
      | r :: rs => (x :: r) :: rs

/-- Slash-separated components of a path. -/
def pathSegments (p : String) : List String :=
  (splitOnChar '/' p.data).map (fun l => ⟨l⟩)

/-- `path.basename` for the relative task paths used by the runner: the
last slash-separated component. -/
def pathBasename (p : String) : String := (pathSegments p).getLastD p

/-- `path.dirname` for the relative task paths used by the runner: all but
the last component, `"."` when there is no separator. -/
def pathDirname (p : String) : String :=
  if (pathSegments p).length ≤ 1 then "."
  else String.intercalate "/" (pathSegments p).dropLast

/-- One regex probe of `extractRepoPaths` (lines 62, 68):
`content.match(/^- \*\*<label>\*\*: (.+)$/m)` over the file treated as a
list of lines — the first line consisting of the exact bullet prefix
followed by a nonempty remainder; the captured group is then trimmed
(lines 74-75). -/
def extractField (label : String) (lines : List String) : Option String :=
  lines.findSome? (fun l =>
    let pre := "- **" ++ label ++ "**: "
    if strStartsWith l pre ∧ strDrop l (strLength pre) ≠ "" then
      some (strTrim (strDrop l (strLength pre)))
    else none)

/-- `extractRepoPaths` (lines 58-77) on the already-read task-file content:
the task directory and repository code paths, or the thrown message when a
probe finds nothing (lines 64, 70). -/
def extractRepoPaths (lines : List String) : Except String (String × String) :=
  match extractField "Task Directory" lines with
  | none => .error "Could not extract task directory from task file"
  | some taskDirPath =>
    match extractField "Repository Code" lines with
    | none => .error "Could not extract repository code path from task file"
    | some repoCodePath => .ok (taskDirPath, repoCodePath)

/-- The result object returned by `runTask` (lines 139-147, 160-168,
179-187).  `logFile` and `error` are `Option` because the three JS object
literals each include only some of the two fields: both spawn paths carry
`logFile` and no `error`, the outer catch carries `error` and no
`logFile`. -/
structure TaskResult where
  success : Bool
  taskName : String
  startTimestamp : String
  endTimestamp : String
  duration : Int
  formattedDuration : String
  logFile : Option String
  error : Option String
deriving DecidableEq

/-- Environment of one `runTask` invocation: the results of its file-system,
clock and process effects.  `taskFileLines` is the content of
`fs.readFile(taskFile)` split into lines (`.error` = the read throws);
`pathExists` answers the repository-directory check of line 106;
`ensureLogDir` is `fs.ensureDir(path.dirname(logFile))` of line 118;
`agentExitZero` tells whether the spawned agent command of line 126 exits 0.
The wall-clock values of lines 89-90 and 129-131/150-152/170-172 are the
`start`/`end` fields. -/
structure RunEnv where
  home : String
  cenv : ClaudeEnv
  taskFileLines : Except String (List String)
  pathExists : String → Bool
  ensureLogDir : Except String Unit
  agentExitZero : Bool
  startTimestamp : String
  endTimestamp : String
  startTime : Int
  endTime : Int

/-- The `try` body of `runTask` (lines 96-168): either the thrown message or
the returned result, paired with whether control reached the agent process
spawn of line 126.  The non-zero-exit spawn is caught by the inner
`catch` (lines 127-148) and becomes a returned failure result, not a
throw.  The detection of lines 97-101 cannot throw (`detectClaudePath` is
total) and is modelled in `runTaskWithCache` below. -/
def runTaskAttempt (taskFile logFile : String) (env : RunEnv) :
    Except String TaskResult × Bool :=
  let taskName := pathBasename (pathDirname taskFile)
  let duration := calculateDuration env.startTime env.endTime
  let formattedDuration := formatDuration duration
  match env.taskFileLines with
  | .error e => (.error e, false)
  | .ok lines =>
    match extractRepoPaths lines with
    | .error e => (.error e, false)
    | .ok (_taskDirPath, repoCodePath) =>
      if env.pathExists repoCodePath = false then
        (.error ("Repository code directory does not exist: " ++ repoCodePath),
         false)
      else
        match env.ensureLogDir with
        | .error e => (.error e, false)
        | .ok _ =>
          if env.agentExitZero then
            (.ok { success := true, taskName,
                   startTimestamp := env.startTimestamp,
                   endTimestamp := env.endTimestamp, duration,
                   formattedDuration, logFile := some logFile,
                   error := none }, true)
          else
            (.ok { success := false, taskName,
                   startTimestamp := env.startTimestamp,
                   endTimestamp := env.endTimestamp, duration,
                   formattedDuration, logFile := some logFile,
                   error := none }, true)

/-- `runTask` (lines 85-189): the outer `catch` (lines 169-188) converts any
error thrown along the unit's execution path into a returned failed result
carrying `error.message` and no `logFile` field. -/
def runTask (taskFile logFile : String) (env : RunEnv) : TaskResult :=
  let taskName := pathBasename (pathDirname taskFile)
  let duration := calculateDuration env.startTime env.endTime
  match (runTaskAttempt taskFile logFile env).1 with
  | .ok r => r
  | .error msg =>
    { success := false, taskName, startTimestamp := env.startTimestamp,
      endTimestamp := env.endTimestamp, duration,
      formattedDuration := formatDuration duration,
      logFile := none, error := some msg }

/-- Whether the agent process of line 126 is spawned during
`runTask taskFile logFile env`. -/
def runTaskSpawned (taskFile logFile : String) (env : RunEnv) : Bool :=
  (runTaskAttempt taskFile logFile env).2

/-- Lines 97-101 together with the module-level `claudePath` cache
(line 51): when the cache is empty the path is detected and cached, and the
cached value is reused afterwards.  The cache is the only module-level
mutable state of the runner. -/
def runTaskWithCache (claudePath : Option String) (taskFile logFile : String)
    (env : RunEnv) : TaskResult × Option String :=
  let cp := match claudePath with
    | some p => p
    | none => detectClaudePath env.home env.cenv
  (runTask taskFile logFile env, some cp)

/-- The summary object returned by `executeWithConcurrency` (line 264). -/
structure ExecResult where
  successful : Nat
  failed : Nat
  results : List TaskResult
deriving DecidableEq

/-- Line 220: the per-unit log path `path.join(path.dirname(taskFile),
'execution.log')`. -/
def taskLogFile (taskFile : String) : String :=
  pathJoin (pathDirname taskFile) "execution.log"

/-- `executeWithConcurrency` (lines 199-265) as a function of its inputs.
`Promise.all` (line 240) returns the per-unit results at the index of their
promise, i.e. in submission order, whatever the completion order (the
operational scheduling model is `schedStates`/`schedFinal` below); the
`successful`/`failed` counters (lines 226-232) end up counting the units
with `success` true resp. false. -/
def executeWithConcurrency (taskFiles : List String) (env : String → RunEnv)
    (maxJobs : Nat) : ExecResult :=
  let allResults := taskFiles.map (fun taskFile =>
    runTask taskFile (taskLogFile taskFile) (env taskFile))
  { successful := (allResults.filter (fun r => r.success)).length,
    failed := (allResults.filter (fun r => !r.success)).length,
    results := allResults }

/-- The per-unit executions threaded with the module-level `claudePath`
cache (line 51) — the only state the runner module keeps across
invocations; it records no completion information. -/
def runAllWithCache (claudePath : Option String) (taskFiles : List String)
    (env : String → RunEnv) : List TaskResult × Option String :=
  match taskFiles with
  | [] => ([], claudePath)
  | taskFile :: rest =>
    let step := runTaskWithCache claudePath taskFile (taskLogFile taskFile)
      (env taskFile)
    let restRun := runAllWithCache step.2 rest env
    (step.1 :: restRun.1, restRun.2)

/-- `executeWithConcurrency` with the module-level `claudePath` cache made
explicit: the value carried in from any previous invocation is the input,
the value left behind is the second component. -/
def executeWithConcurrencyStateful (claudePath : Option String)
    (taskFiles : List String) (env : String → RunEnv) (maxJobs : Nat) :
    ExecResult × Option String :=
  let run := runAllWithCache claudePath taskFiles env
  ({ successful := (run.1.filter (fun r => r.success)).length,
     failed := (run.1.filter (fun r => !r.success)).length,
     results := run.1 }, run.2)

/-- Environment of `executeTasks` (lines 274-328): the `fs.readdir` listing
of the output directory, which item paths are directories, and which
`task.md` files exist. -/
structure DirEnv where
  outputDirExists : Bool
  items : List String
  isDirectory : String → Bool
  pathExists : String → Bool

/-- Lines 281-296 of `executeTasks`: collect `<outputDir>/<item>/task.md`
for every directory item that contains one, in `readdir` order, then
`taskFiles.sort()` — JS `Array.prototype.sort` without a comparator orders
strings lexicographically, embedded here as insertion sort by the `≤` order
on `String`. -/
def gatherTaskFiles (outputDir : String) (d : DirEnv) : List String :=
  let collected := d.items.filterMap (fun item =>
    let itemPath := pathJoin outputDir item
    if d.isDirectory itemPath then
      let taskFilePath := pathJoin itemPath "task.md"
      if d.pathExists taskFilePath then some taskFilePath else none
    else none)
  List.insertionSort (· ≤ ·) collected

/-- The summary object returned by `executeTasks` (lines 319-327). -/
structure ExecSummary where
  successful : Nat
  failed : Nat
  totalTasks : Nat
  startTimestamp : String
  endTimestamp : String
  duration : String
  outputDir : String
deriving DecidableEq

/-- `executeTasks` (lines 274-328): throw when the output directory is
missing or no task files are found, otherwise run every collected task file
through `executeWithConcurrency` and summarise. -/
def executeTasks (outputDir : String) (d : DirEnv) (env : String → RunEnv)
    (maxJobs : Nat) (startTimestamp endTimestamp : String)
    (startTime endTime : Int) : Except String ExecSummary :=
  if d.outputDirExists = false then
    .error (outputDir ++
      " directory not found. Please ensure task generation was successful")
  else
    let taskFiles := gatherTaskFiles outputDir d
    if taskFiles.isEmpty then
      .error ("No task.md files found in " ++ outputDir ++
        ". Please ensure task generation was successful")
    else
      let result := executeWithConcurrency taskFiles env maxJobs
      .ok { successful := result.successful, failed := result.failed,
            totalTasks := taskFiles.length, startTimestamp, endTimestamp,
            duration := formatDuration (calculateDuration startTime endTime),
            outputDir }

/-! ### Operational model of the bounded dispatch

`executeWithConcurrency` wraps each unit in `limit(...)` where
`limit = pLimit(maxJobs)` (lines 207-236).  `p-limit` keeps a FIFO queue of
pending functions, starts one whenever fewer than `maxJobs` are active, and
on each completion starts the next queued function.  The model below tracks
unit indices: `pending` is the FIFO queue in submission order, `running`
the active units, `finished` the completion order.  Which running unit
completes next is environmental, supplied by the `choices` list. -/

/-- Scheduler state of the bounded dispatch: queued, in-flight and
completed unit indices. -/
structure SchedState where
  pending : List Nat
  running : List Nat
  finished : List Nat
deriving DecidableEq

/-- Move units from the FIFO queue into the running set while a slot is
free (`p-limit` starts a queued function whenever `activeCount <
concurrency`). -/
def fillFrom (limit : Nat) (running pending : List Nat) : List Nat × List Nat :=
  match pending with
  | [] => (running, [])
  | p :: ps =>
    if running.length < limit then fillFrom limit (running ++ [p]) ps
    else (running, p :: ps)

/-- `fillFrom` applied to a state. -/
def fillSlots (limit : Nat) (s : SchedState) : SchedState :=
  { s with running := (fillFrom limit s.running s.pending).1,
           pending := (fillFrom limit s.running s.pending).2 }

/-- One environmental completion: the choice `c` picks a running unit
(modulo the number of running units), which moves to the end of the
completion order.  With nothing running the state is unchanged. -/
def completeOne (c : Nat) (s : SchedState) : SchedState :=
  match s.running with
  | [] => s
  | r :: rs =>
    let run := r :: rs
    let k := c % run.length
    { s with running := run.take k ++ run.drop (k + 1),
             finished := s.finished ++ [run.getD k 0] }

/-- One scheduling round: fill free slots, then one completion. -/
def schedStep (limit c : Nat) (s : SchedState) : SchedState :=
  completeOne c (fillSlots limit s)

/-- Every instant of a dispatch run: the state after each slot fill (when
the number in flight is largest) and after each completion. -/
def schedStates (limit : Nat) (choices : List Nat) (s : SchedState) :
    List SchedState :=
  match choices with
  | [] => [fillSlots limit s]
  | c :: cs =>
    let s1 := fillSlots limit s
    let s2 := completeOne c s1
    s1 :: s2 :: schedStates limit cs s2

/-- The state after running every scheduling round of `choices`. -/
def schedFinal (limit : Nat) (choices : List Nat) (s : SchedState) :
    SchedState :=
  match choices with
  | [] => s
  | c :: cs => schedFinal limit cs (schedStep limit c s)

/-- Initial dispatch state for a submitted task-file list: all unit indices
queued in submission order, nothing running or finished. -/
def schedInit (taskFiles : List String) : SchedState :=
  { pending := List.range taskFiles.length, running := [], finished := [] }

/-- The result of unit `i` of the submitted list (lines 216-235: each
wrapped function runs `runTask` on its own task file and log path). -/
def runTaskAt (taskFiles : List String) (env : String → RunEnv) (i : Nat) :
    TaskResult :=
  let taskFile := taskFiles.getD i ""
  runTask taskFile (taskLogFile taskFile) (env taskFile)

/-- `Promise.all` result assembly (line 240): each completing unit resolves
the promise at its own submission index, so completion order only affects
the order of the writes, never their position. -/
def promiseAllAssemble (n : Nat) (order : List Nat) (f : Nat → TaskResult) :
    List (Option TaskResult) :=
  order.foldl (fun arr i => arr.set i (some (f i))) (List.replicate n none)

/-- `executeWithConcurrency` under the operational dispatch model: run the
bounded scheduler with the environmental completion `choices`, then
assemble the `Promise.all` array from the resulting completion order. -/
def executeWithSchedule (taskFiles : List String) (env : String → RunEnv)
    (maxJobs : Nat) (choices : List Nat) : List (Option TaskResult) :=
  promiseAllAssemble taskFiles.length
    ((schedFinal maxJobs choices (schedInit taskFiles)).finished)
    (runTaskAt taskFiles env)

/-! ### Helper lemmas: the retry loop -/

theorem retryGo_allFail_attempts {ε α : Type} (err : Nat → ε) (d M : Nat)
    (nm : String) :
    ∀ (r a : Nat),
      (retryGo (fun k => (Except.error (err k) : Except ε α)) d M nm a r).attempts
        = r + 1 := by
  intro r
  induction r with
  | zero => intro a; simp [retryGo]
  | succ n ih => intro a; simp [retryGo, ih (a + 1)]

theorem retryGo_allFail_delays {ε α : Type} (err : Nat → ε) (d M : Nat)
    (nm : String) :
    ∀ (r a : Nat),
      (retryGo (fun k => (Except.error (err k) : Except ε α)) d M nm a r).delays
        = (List.range r).map (fun j => min (d * 2 ^ (a + j)) M) := by
  intro r
  induction r with
  | zero => intro a; simp [retryGo]
  | succ n ih =>
    intro a
    have hsh : ∀ j : Nat, a + 1 + j = a + (j + 1) := fun j => by omega
    simp [retryGo, ih (a + 1), List.range_succ_eq_map, List.map_map,
      Function.comp, hsh]

theorem retryGo_allFail_result {ε α : Type} (err : Nat → ε) (d M : Nat)
    (nm : String) :
    ∀ (r a : Nat),
      (retryGo (fun k => (Except.error (err k) : Except ε α)) d M nm a r).result
        = Except.error (err (a + r)) := by
  intro r
  induction r with
  | zero => intro a; simp [retryGo]
  | succ n ih =>
    intro a
    have : a + 1 + n = a + (n + 1) := by omega
    simp [retryGo, ih (a + 1), this]

theorem retryGo_allFail_exhausted {ε α : Type} (err : Nat → ε) (d M : Nat)
    (nm : String) :
    ∀ (r a : Nat),
      RetryNotice.exhausted nm (a + r + 1)
        ∈ (retryGo (fun k => (Except.error (err k) : Except ε α)) d M nm a r).notices := by
  intro r
  induction r with
  | zero => intro a; simp [retryGo]
  | succ n ih =>
    intro a
    have : a + (n + 1) + 1 = a + 1 + n + 1 := by omega
    simp only [retryGo, this]
    exact List.mem_cons_of_mem _ (List.mem_cons_of_mem _ (ih (a + 1)))

theorem retryGo_firstSuccess {ε α : Type} (err : Nat → ε) (v : α) (j : Nat)
    (d M : Nat) (nm : String) :
    ∀ (r a : Nat), a ≤ j → j ≤ a + r →
      (retryGo (fun k => if k < j then Except.error (err k) else Except.ok v)
          d M nm a r).result = Except.ok v
      ∧ (retryGo (fun k => if k < j then Except.error (err k) else Except.ok v)
          d M nm a r).attempts = j - a + 1 := by
  intro r
  induction r with
  | zero =>
    intro a h1 h2
    have haj : a = j := by omega
    have : ¬ a < j := by omega
    simp [retryGo, this, haj]
  | succ n ih =>
    intro a h1 h2
    by_cases haj : a = j
    · have : ¬ a < j := by omega
      simp [retryGo, this, haj]
    · have ha : a < j := lt_of_le_of_ne h1 haj
      have ih1 := ih (a + 1) (by omega) (by omega)
      simp only [retryGo, if_pos ha]
      refine ⟨ih1.1, ?_⟩
      simp only [ih1.2]
      omega

/-- C4: for an always-failing operation, `retryWithBackoff` performs exactly
`maxRetries + 1` attempts; the delay before retry `k` (0-indexed over the
failures) is `min(initialDelay * 2^k, maxDelay)`, saturating at `maxDelay`;
`maxRetries = 0` yields exactly one attempt with no delays; and concretely,
`maxRetries = 3, initialDelay = 1000, maxDelay = 8000` gives 4 attempts with
delays `1000, 2000, 4000` ms, while `maxDelay = 3000` saturates the third
delay to `3000` ms. -/
theorem c4_backoff_schedule {ε α : Type} (err : Nat → ε)
    (maxRetries initialDelay maxDelay : Nat) (operationName : String) :
    (retryWithBackoff (fun k => (Except.error (err k) : Except ε α))
        ⟨maxRetries, initialDelay, maxDelay, operationName⟩).attempts
      = maxRetries + 1
    ∧ (retryWithBackoff (fun k => (Except.error (err k) : Except ε α))
        ⟨maxRetries, initialDelay, maxDelay, operationName⟩).delays
      = (List.range maxRetries).map (fun k => min (initialDelay * 2 ^ k) maxDelay)
    ∧ (retryWithBackoff (fun k => (Except.error (err k) : Except ε α))
        ⟨0, initialDelay, maxDelay, operationName⟩).attempts = 1
    ∧ (retryWithBackoff (fun k => (Except.error (err k) : Except ε α))
        ⟨0, initialDelay, maxDelay, operationName⟩).delays = []
    ∧ (retryWithBackoff (fun _ => (Except.error () : Except Unit Unit))
        ⟨3, 1000, 8000, "Operation"⟩).attempts = 4
    ∧ (retryWithBackoff (fun _ => (Except.error () : Except Unit Unit))
        ⟨3, 1000, 8000, "Operation"⟩).delays = [1000, 2000, 4000]
    ∧ (retryWithBackoff (fun _ => (Except.error () : Except Unit Unit))
        ⟨3, 1000, 3000, "Operation"⟩).delays = [1000, 2000, 3000] := by
  refine ⟨retryGo_allFail_attempts (α := α) err initialDelay maxDelay
      operationName maxRetries 0, ?_,
    retryGo_allFail_attempts (α := α) err initialDelay maxDelay operationName 0 0,
    retryGo_allFail_delays (α := α) err initialDelay maxDelay operationName 0 0,
    by decide, by decide, by decide⟩
  have h := retryGo_allFail_delays (α := α) err initialDelay maxDelay
    operationName maxRetries 0
  simpa using h

/-- C5: `retryWithBackoff` returns the operation's result as soon as an
attempt succeeds, with exactly that many invocations and no further
attempts; when every attempt fails it re-raises the very last failure, and
the exhaustion diagnostic it emits is tagged with the operation label. -/
theorem c5_retry_results {ε α : Type} (err : Nat → ε) (v : α)
    (opts : RetryOptions) (j : Nat) :
    ((retryWithBackoff (fun k => (Except.error (err k) : Except ε α)) opts).result
        = Except.error (err opts.maxRetries)
      ∧ RetryNotice.exhausted opts.operationName (opts.maxRetries + 1)
          ∈ (retryWithBackoff (fun k => (Except.error (err k) : Except ε α))
              opts).notices)
    ∧ (j ≤ opts.maxRetries →
        (retryWithBackoff
            (fun k => if k < j then Except.error (err k) else Except.ok v)
            opts).result = Except.ok v
        ∧ (retryWithBackoff
            (fun k => if k < j then Except.error (err k) else Except.ok v)
            opts).attempts = j + 1) := by
  constructor
  · constructor
    · have h := retryGo_allFail_result (α := α) err opts.initialDelay
        opts.maxDelay opts.operationName opts.maxRetries 0
      simpa [retryWithBackoff] using h
    · have h := retryGo_allFail_exhausted (α := α) err opts.initialDelay
        opts.maxDelay opts.operationName opts.maxRetries 0
      simpa [retryWithBackoff] using h
  · intro hj
    have h := retryGo_firstSuccess err v j opts.initialDelay opts.maxDelay
      opts.operationName opts.maxRetries 0 (Nat.zero_le j) (by omega)
    simpa [retryWithBackoff] using h

/-- Closed instance of `c5_retry_results`: the operation fails once and then
succeeds, returning the result on the second attempt. -/
theorem c5_retry_results_witness :
    (1 : Nat) ≤ (3 : Nat)
    ∧ (retryWithBackoff
        (fun k => if k < 1 then Except.error k else Except.ok "done")
        ⟨3, 1000, 8000, "Cloning"⟩).result = Except.ok "done"
    ∧ (retryWithBackoff
        (fun k => if k < 1 then Except.error k else Except.ok "done")
        ⟨3, 1000, 8000, "Cloning"⟩).attempts = 2 := by
  have h := (c5_retry_results (fun k => k) "done" ⟨3, 1000, 8000, "Cloning"⟩ 1).2
    (by decide)
  exact ⟨by decide, h.1, h.2⟩

/-! ### Concrete environments used to instantiate the theorems -/

/-- Task-file content whose two path markers both extract. -/
def sampleLines : List String :=
  ["# Task", "- **Task Directory**: tasks/001_demo",
   "- **Repository Code**: tasks/001_demo/demo"]

/-- A detection environment in which no candidate exists and `which`
fails. -/
def sampleClaudeEnv : ClaudeEnv :=
  ⟨fun _ => true, fun _ => false, none⟩

/-- A healthy single-unit environment: the task file reads, both paths
extract, the repository directory exists, and the agent exits 0. -/
def sampleEnv : RunEnv :=
  { home := "/home/user", cenv := sampleClaudeEnv,
    taskFileLines := .ok sampleLines,
    pathExists := fun _ => true,
    ensureLogDir := .ok (),
    agentExitZero := true,
    startTimestamp := "2024-01-01 00:00:00",
    endTimestamp := "2024-01-01 00:01:05",
    startTime := 0, endTime := 65000 }

/-- `sampleEnv` with the repository code directory missing. -/
def sampleMissingDirEnv : RunEnv :=
  { sampleEnv with pathExists := fun _ => false }

/-- `sampleEnv` with a task file from which no path extracts. -/
def sampleBadFileEnv : RunEnv :=
  { sampleEnv with taskFileLines := .ok ["no markers here"] }

/-- `sampleEnv` with the agent process exiting non-zero. -/
def sampleFailingAgentEnv : RunEnv :=
  { sampleEnv with agentExitZero := false }

/-! ### Helper lemmas: counting -/

theorem length_filter_pos_add_neg {α : Type} (p : α → Bool) (l : List α) :
    (l.filter p).length + (l.filter (fun x => !p x)).length = l.length := by
  induction l with
  | nil => rfl
  | cons x xs ih =>
    by_cases hx : p x <;> simp [List.filter_cons, hx] <;> omega

/-- C1: for every task-file list and every `maxJobs ≥ 1`,
`executeWithConcurrency` returns exactly one outcome per unit, and the
returned counters satisfy `successful + failed = N`, `successful` counting
exactly the successful outcomes and `failed` exactly the rest. -/
theorem c1_scheduler_counts (taskFiles : List String) (env : String → RunEnv)
    (maxJobs : Nat) (hmax : 1 ≤ maxJobs) :
    (executeWithConcurrency taskFiles env maxJobs).results.length
        = taskFiles.length
    ∧ (executeWithConcurrency taskFiles env maxJobs).successful
        + (executeWithConcurrency taskFiles env maxJobs).failed
        = taskFiles.length
    ∧ (executeWithConcurrency taskFiles env maxJobs).successful
        = ((executeWithConcurrency taskFiles env maxJobs).results.filter
            (fun r => r.success)).length
    ∧ (executeWithConcurrency taskFiles env maxJobs).failed
        = ((executeWithConcurrency taskFiles env maxJobs).results.filter
            (fun r => !r.success)).length := by
  refine ⟨by simp [executeWithConcurrency], ?_, rfl, rfl⟩
  have h := length_filter_pos_add_neg (fun r => r.success)
    (taskFiles.map (fun taskFile =>
      runTask taskFile (taskLogFile taskFile) (env taskFile)))
  simpa [executeWithConcurrency] using h

/-- Closed instance of `c1_scheduler_counts` on a one-unit list. -/
theorem c1_scheduler_counts_witness :
    (1 : Nat) ≤ 1
    ∧ (executeWithConcurrency ["tasks/001_demo/task.md"] (fun _ => sampleEnv)
        1).results.length = 1
    ∧ (executeWithConcurrency ["tasks/001_demo/task.md"] (fun _ => sampleEnv)
        1).successful
      + (executeWithConcurrency ["tasks/001_demo/task.md"] (fun _ => sampleEnv)
        1).failed = 1 := by
  have h := c1_scheduler_counts ["tasks/001_demo/task.md"] (fun _ => sampleEnv)
    1 (by decide)
  exact ⟨by decide, h.1, h.2.1⟩

/-- C3: outcome classification of `runTask`.  When the repository code
directory is missing no agent process is spawned and the outcome is a
failure carrying the error detail; when the agent exits 0 the outcome is a
success with no error detail; when the agent exits non-zero the outcome is
a failure with no error detail and the log artifact path preserved. -/
theorem c3_runTask_outcomes (taskFile logFile : String) (env : RunEnv)
    (lines : List String) (taskDirPath repoCodePath : String)
    (hread : env.taskFileLines = .ok lines)
    (hex : extractRepoPaths lines = .ok (taskDirPath, repoCodePath)) :
    (env.pathExists repoCodePath = false →
      runTaskSpawned taskFile logFile env = false
      ∧ (runTask taskFile logFile env).success = false
      ∧ (runTask taskFile logFile env).error
          = some ("Repository code directory does not exist: " ++ repoCodePath))
    ∧ (env.pathExists repoCodePath = true → env.ensureLogDir = .ok () →
        env.agentExitZero = true →
        (runTask taskFile logFile env).success = true
        ∧ (runTask taskFile logFile env).error = none)
    ∧ (env.pathExists repoCodePath = true → env.ensureLogDir = .ok () →
        env.agentExitZero = false →
        (runTask taskFile logFile env).success = false
        ∧ (runTask taskFile logFile env).error = none
        ∧ (runTask taskFile logFile env).logFile = some logFile) := by
  refine ⟨?_, ?_, ?_⟩
  · intro hmiss
    simp [runTask, runTaskSpawned, runTaskAttempt, hread, hex, hmiss]
  · intro hdir hlog hexit
    simp [runTask, runTaskAttempt, hread, hex, hdir, hlog, hexit]
  · intro hdir hlog hexit
    simp [runTask, runTaskAttempt, hread, hex, hdir, hlog, hexit]

set_option maxRecDepth 8192 in
/-- Closed instance of `c3_runTask_outcomes` at the three concrete
environments. -/
theorem c3_runTask_outcomes_witness :
    ((runTask "tasks/001_demo/task.md" "tasks/001_demo/execution.log"
        sampleMissingDirEnv).success = false
      ∧ runTaskSpawned "tasks/001_demo/task.md" "tasks/001_demo/execution.log"
          sampleMissingDirEnv = false)
    ∧ (runTask "tasks/001_demo/task.md" "tasks/001_demo/execution.log"
        sampleEnv).success = true
    ∧ (runTask "tasks/001_demo/task.md" "tasks/001_demo/execution.log"
        sampleFailingAgentEnv).logFile = some "tasks/001_demo/execution.log" := by
  have h1 := (c3_runTask_outcomes "tasks/001_demo/task.md"
    "tasks/001_demo/execution.log" sampleMissingDirEnv sampleLines
    "tasks/001_demo" "tasks/001_demo/demo" rfl rfl).1 rfl
  have h2 := ((c3_runTask_outcomes "tasks/001_demo/task.md"
    "tasks/001_demo/execution.log" sampleEnv sampleLines
    "tasks/001_demo" "tasks/001_demo/demo" rfl rfl).2.1 rfl rfl rfl).1
  have h3 := ((c3_runTask_outcomes "tasks/001_demo/task.md"
    "tasks/001_demo/execution.log" sampleFailingAgentEnv sampleLines
    "tasks/001_demo" "tasks/001_demo/demo" rfl rfl).2.2 rfl rfl rfl).2.2
  exact ⟨⟨h1.2.1, h1.1⟩, h2, h3⟩

/-! ### Helper lemmas: the outcome fields of `runTask` -/

theorem runTaskAttempt_ok_fields (taskFile logFile : String) (env : RunEnv)
    (r : TaskResult) (h : (runTaskAttempt taskFile logFile env).1 = .ok r) :
    r.taskName = pathBasename (pathDirname taskFile)
    ∧ r.startTimestamp = env.startTimestamp
    ∧ r.endTimestamp = env.endTimestamp
    ∧ r.duration = calculateDuration env.startTime env.endTime
    ∧ r.logFile = some logFile
    ∧ r.error = none := by
  rcases hread : env.taskFileLines with e | lines
  · simp [runTaskAttempt, hread] at h
  · rcases hex : extractRepoPaths lines with e | ⟨taskDirPath, repoCodePath⟩
    · simp [runTaskAttempt, hread, hex] at h
    · by_cases hdir : env.pathExists repoCodePath
      · rcases hlog : env.ensureLogDir with e | u
        · simp [runTaskAttempt, hread, hex, hdir, hlog] at h
        · by_cases hexit : env.agentExitZero
          · simp [runTaskAttempt, hread, hex, hdir, hlog, hexit] at h
            subst h
            simp
          · simp [runTaskAttempt, hread, hex, hdir, hlog, hexit] at h
            subst h
            simp
      · simp [runTaskAttempt, hread, hex, hdir] at h

/-- C7: `runTask` is total, and every error thrown along a unit's execution
path — caught at the unit boundary (lines 169-188) — becomes a returned
failed outcome carrying the thrown message; consequently the scheduler
still returns one outcome for every submitted unit. -/
theorem c7_unit_boundary (taskFile logFile : String) (env : RunEnv)
    (msg : String) (taskFiles : List String) (envs : String → RunEnv)
    (maxJobs : Nat) :
    ((runTaskAttempt taskFile logFile env).1 = .error msg →
      (runTask taskFile logFile env).success = false
      ∧ (runTask taskFile logFile env).error = some msg
      ∧ runTaskSpawned taskFile logFile env = false)
    ∧ (executeWithConcurrency taskFiles envs maxJobs).results.length
        = taskFiles.length := by
  constructor
  · intro h
    refine ⟨?_, ?_, ?_⟩
    · simp [runTask, h]
    · simp [runTask, h]
    · unfold runTaskSpawned
      rcases hread : env.taskFileLines with e | lines
      · simp [runTaskAttempt, hread]
      · rcases hex : extractRepoPaths lines with e | ⟨taskDirPath, repoCodePath⟩
        · simp [runTaskAttempt, hread, hex]
        · by_cases hdir : env.pathExists repoCodePath
          · rcases hlog : env.ensureLogDir with e | u
            · simp [runTaskAttempt, hread, hex, hdir, hlog]
            · exfalso
              by_cases hexit : env.agentExitZero <;>
                simp [runTaskAttempt, hread, hex, hdir, hlog, hexit] at h
          · simp [runTaskAttempt, hread, hex, hdir]
  · simp [executeWithConcurrency]

set_option maxRecDepth 8192 in
/-- Closed instance of `c7_unit_boundary`: a task file with no extractable
paths throws inside the unit, and `runTask` converts the throw into a
failed outcome. -/
theorem c7_unit_boundary_witness :
    (runTaskAttempt "tasks/001_demo/task.md" "tasks/001_demo/execution.log"
        sampleBadFileEnv).1
      = .error "Could not extract task directory from task file"
    ∧ (runTask "tasks/001_demo/task.md" "tasks/001_demo/execution.log"
        sampleBadFileEnv).success = false
    ∧ (runTask "tasks/001_demo/task.md" "tasks/001_demo/execution.log"
        sampleBadFileEnv).error
      = some "Could not extract task directory from task file" := by
  have h := (c7_unit_boundary "tasks/001_demo/task.md"
    "tasks/001_demo/execution.log" sampleBadFileEnv
    "Could not extract task directory from task file" [] (fun _ => sampleEnv)
    1).1 rfl
  exact ⟨rfl, h.1, h.2.1⟩

set_option maxRecDepth 8192 in
/-- C8 as stated is false: on the exception path (here a missing repository
code directory) the outcome object of `runTask` (lines 179-187) contains no
log artifact path at all. -/
theorem c8_counterexample :
    (runTask "tasks/001_demo/task.md" "tasks/001_demo/execution.log"
      sampleMissingDirEnv).logFile = none := rfl

/-- C8 (amended): every outcome of `runTask` contains the unit identifier,
success flag, start and end timestamps and duration; outcomes of the two
spawn paths additionally carry the log artifact path and no error detail,
while outcomes of the exception path carry an error detail and no log
artifact path. -/
theorem c8_outcome_fields (taskFile logFile : String) (env : RunEnv) :
    (runTask taskFile logFile env).taskName
        = pathBasename (pathDirname taskFile)
    ∧ (runTask taskFile logFile env).startTimestamp = env.startTimestamp
    ∧ (runTask taskFile logFile env).endTimestamp = env.endTimestamp
    ∧ (runTask taskFile logFile env).duration
        = calculateDuration env.startTime env.endTime
    ∧ ((runTaskAttempt taskFile logFile env).1.isOk = true →
        (runTask taskFile logFile env).logFile = some logFile
        ∧ (runTask taskFile logFile env).error = none)
    ∧ ((runTaskAttempt taskFile logFile env).1.isOk = false →
        (runTask taskFile logFile env).logFile = none
        ∧ (runTask taskFile logFile env).error.isSome = true) := by
  rcases hat : (runTaskAttempt taskFile logFile env).1 with msg | r
  · simp [runTask, hat, Except.isOk, Except.toBool]
  · have hf := runTaskAttempt_ok_fields taskFile logFile env r hat
    simp [runTask, hat, Except.isOk, Except.toBool, hf.1, hf.2.1, hf.2.2.1,
      hf.2.2.2.1, hf.2.2.2.2.1, hf.2.2.2.2.2]

set_option maxRecDepth 8192 in
/-- Closed instance of `c8_outcome_fields` at a succeeding and at a failing
environment. -/
theorem c8_outcome_fields_witness :
    ((runTaskAttempt "tasks/001_demo/task.md" "tasks/001_demo/execution.log"
        sampleEnv).1.isOk = true
      ∧ (runTask "tasks/001_demo/task.md" "tasks/001_demo/execution.log"
          sampleEnv).logFile = some "tasks/001_demo/execution.log")
    ∧ ((runTaskAttempt "tasks/001_demo/task.md" "tasks/001_demo/execution.log"
        sampleBadFileEnv).1.isOk = false
      ∧ (runTask "tasks/001_demo/task.md" "tasks/001_demo/execution.log"
          sampleBadFileEnv).error.isSome = true) := by
  have h1 := (c8_outcome_fields "tasks/001_demo/task.md"
    "tasks/001_demo/execution.log" sampleEnv).2.2.2.2.1 rfl
  have h2 := (c8_outcome_fields "tasks/001_demo/task.md"
    "tasks/001_demo/execution.log" sampleBadFileEnv).2.2.2.2.2 rfl
  exact ⟨⟨rfl, h1.1⟩, ⟨rfl, h2.2⟩⟩

/-! ### Helper lemmas: nonemptiness of the detected agent path -/

theorem candidatePaths_ne_empty (home : String) :
    ∀ p ∈ candidatePaths home, p ≠ "" := by
  intro p hp
  have hlen : ∀ (a b : String), b ≠ "" → a ++ b ≠ "" := by
    intro a b hb h
    apply hb
    rcases a with ⟨da⟩
    rcases b with ⟨db⟩
    simp [String.ext_iff] at h ⊢
    rcases h with ⟨h1, h2⟩
    exact h2
  simp [candidatePaths] at hp
  rcases hp with h | h | h | h | h <;> subst h
  · exact hlen home "/.claude/local/node_modules/.bin/claude" (by decide)
  · exact hlen home "/.claude/local/claude" (by decide)
  · exact hlen home "/.local/bin/claude" (by decide)
  · decide
  · decide

/-- C10: agent executable resolution never fails a unit.
`detectClaudePath` is total and always returns a nonempty path string
(falling back to the literal `"claude"`), and threading the module-level
path cache through a unit leaves the unit's outcome exactly that of
`runTask` — no failed outcome can arise solely from locating the agent
executable. -/
theorem c10_detect_always_resolves (home : String) (cenv : ClaudeEnv)
    (cache : Option String) (taskFile logFile : String) (env : RunEnv) :
    detectClaudePath home cenv ≠ ""
    ∧ (runTaskWithCache cache taskFile logFile env).1
        = runTask taskFile logFile env
    ∧ (runTaskWithCache cache taskFile logFile env).2.isSome = true := by
  refine ⟨?_, rfl, by rcases cache <;> rfl⟩
  unfold detectClaudePath
  rcases hf : (candidatePaths home).find?
      (fun p => cenv.pathExistsOk p && cenv.pathExists p) with _ | p
  · simp only [hf]
    rcases hw : cenv.whichClaude with _ | detectedPath
    · simp only [hw]
      decide
    · simp only [hw]
      by_cases hc : (detectedPath != "" && cenv.pathExistsOk detectedPath
          && cenv.pathExists detectedPath) = true
      · simp only [hc, if_true]
        have hne : (detectedPath != "") = true := by
          simp only [Bool.and_eq_true] at hc
          exact hc.1.1
        simpa using hne
      · simp only [if_neg hc]
        decide
  · simp only [hf]
    have hp := List.mem_of_find?_eq_some hf
    exact candidatePaths_ne_empty home p hp

/-! ### Helper lemmas: the module state across invocations -/

theorem runAllWithCache_results (env : String → RunEnv) :
    ∀ (taskFiles : List String) (cache : Option String),
      (runAllWithCache cache taskFiles env).1
        = taskFiles.map (fun taskFile =>
            runTask taskFile (taskLogFile taskFile) (env taskFile)) := by
  intro taskFiles
  induction taskFiles with
  | nil => intro cache; rfl
  | cons taskFile rest ih =>
    intro cache
    simp [runAllWithCache, runTaskWithCache, ih]

/-- C9: re-invoking the scheduler on the same task-file list re-executes
every unit.  The only module state carried across invocations is the
`claudePath` cache; whatever its value — and whatever any prior run
returned — the new invocation produces the same summary as a fresh one,
with one outcome per unit, each computed afresh from that unit's task
file. -/
theorem c9_no_persisted_state (taskFiles : List String)
    (env : String → RunEnv) (maxJobs : Nat) (priorRun : ExecResult)
    (cache cacheOther : Option String) :
    (executeWithConcurrencyStateful cache taskFiles env maxJobs).1
        = (executeWithConcurrencyStateful cacheOther taskFiles env maxJobs).1
    ∧ (executeWithConcurrencyStateful cache taskFiles env maxJobs).1
        = executeWithConcurrency taskFiles env maxJobs
    ∧ (executeWithConcurrencyStateful cache taskFiles env maxJobs).1.results.length
        = taskFiles.length
    ∧ (∀ i, i < taskFiles.length →
        (executeWithConcurrencyStateful cache taskFiles env
            maxJobs).1.results[i]? = some (runTaskAt taskFiles env i)) := by
  have key : ∀ c : Option String,
      (executeWithConcurrencyStateful c taskFiles env maxJobs).1
        = executeWithConcurrency taskFiles env maxJobs := by
    intro c
    simp [executeWithConcurrencyStateful, executeWithConcurrency,
      runAllWithCache_results env taskFiles c]
  refine ⟨(key cache).trans (key cacheOther).symm, key cache, ?_, ?_⟩
  · rw [key cache]
    simp [executeWithConcurrency]
  · intro i hi
    rw [key cache]
    simp only [executeWithConcurrency]
    rw [List.getElem?_map, List.getElem?_eq_getElem hi]
    simp [runTaskAt, List.getD, List.getElem?_eq_getElem hi]

set_option maxRecDepth 8192 in
/-- Closed instance of `c9_no_persisted_state`: after a prior failed run
and with a populated path cache, the unit is still re-executed. -/
theorem c9_no_persisted_state_witness :
    (0 : Nat) < ([ "tasks/001_demo/task.md" ] : List String).length
    ∧ (executeWithConcurrencyStateful (some "claude")
        ["tasks/001_demo/task.md"] (fun _ => sampleEnv) 1).1.results[0]?
      = some (runTaskAt ["tasks/001_demo/task.md"] (fun _ => sampleEnv) 0) := by
  refine ⟨by decide, ?_⟩
  exact (c9_no_persisted_state ["tasks/001_demo/task.md"] (fun _ => sampleEnv)
    1 ⟨0, 1, []⟩ (some "claude") none).2.2.2 0 (by decide)

/-! ### Helper lemmas: the bounded dispatch -/

theorem fillFrom_length_le (limit : Nat) :
    ∀ (pending running : List Nat), running.length ≤ limit →
      (fillFrom limit running pending).1.length ≤ limit := by
  intro pending
  induction pending with
  | nil => intro running h; simpa [fillFrom] using h
  | cons p ps ih =>
    intro running h
    by_cases hlt : running.length < limit
    · simpa [fillFrom, hlt] using ih (running ++ [p]) (by simp; omega)
    · simpa [fillFrom, hlt] using h

theorem fillFrom_append (limit : Nat) :
    ∀ (pending running : List Nat),
      (fillFrom limit running pending).1 ++ (fillFrom limit running pending).2
        = running ++ pending := by
  intro pending
  induction pending with
  | nil => intro running; simp [fillFrom]
  | cons p ps ih =>
    intro running
    by_cases hlt : running.length < limit
    · have h := ih (running ++ [p])
      simp [fillFrom, hlt, h]
    · simp [fillFrom, hlt]

theorem fillFrom_length_ge (limit : Nat) :
    ∀ (pending running : List Nat),
      running.length ≤ (fillFrom limit running pending).1.length := by
  intro pending
  induction pending with
  | nil => intro running; simp [fillFrom]
  | cons p ps ih =>
    intro running
    by_cases hlt : running.length < limit
    · have h := ih (running ++ [p])
      simp [fillFrom, hlt]
      simp at h
      omega
    · simp [fillFrom, hlt]

theorem fillFrom_fst_ne_nil (limit : Nat) (hl : 1 ≤ limit)
    (running pending : List Nat) (h : ¬ (running = [] ∧ pending = [])) :
    (fillFrom limit running pending).1 ≠ [] := by
  rcases hrun : running with _ | ⟨r, rs⟩
  · rcases hpen : pending with _ | ⟨p, ps⟩
    · subst hrun; subst hpen; exact absurd ⟨rfl, rfl⟩ h
    · have h1 : ([] : List Nat).length < limit := by simpa using hl
      have h2 := fillFrom_length_ge limit ps [p]
      simp only [fillFrom, h1, if_true, List.nil_append]
      intro hnil
      rw [hnil] at h2
      simp at h2
  · have h2 := fillFrom_length_ge limit pending (r :: rs)
    rw [← hrun] at h2 ⊢
    intro hnil
    rw [hnil] at h2
    simp [hrun] at h2

theorem fillSlots_finished (limit : Nat) (s : SchedState) :
    (fillSlots limit s).finished = s.finished := rfl

theorem fillSlots_running_le (limit : Nat) (s : SchedState)
    (h : s.running.length ≤ limit) :
    (fillSlots limit s).running.length ≤ limit :=
  fillFrom_length_le limit s.pending s.running h

theorem completeOne_running_le (c : Nat) (s : SchedState) :
    (completeOne c s).running.length ≤ s.running.length := by
  rcases hr : s.running with _ | ⟨r, rs⟩
  · simp [completeOne, hr]
  · have hk : c % (r :: rs).length < (r :: rs).length :=
      Nat.mod_lt _ (by simp)
    simp [completeOne, hr, List.length_take, List.length_drop]
    omega

theorem completeOne_of_running_nil (c : Nat) (s : SchedState)
    (h : s.running = []) : completeOne c s = s := by
  simp [completeOne, h]

theorem completeOne_finished_length (c : Nat) (s : SchedState)
    (h : s.running ≠ []) :
    (completeOne c s).finished.length = s.finished.length + 1 := by
  rcases hr : s.running with _ | ⟨r, rs⟩
  · exact absurd hr h
  · simp [completeOne, hr]

/-- The concatenation of completed, running and queued units.  `fillSlots`
leaves it unchanged, `completeOne` permutes it. -/
def schedUnits (s : SchedState) : List Nat :=
  s.finished ++ s.running ++ s.pending

theorem fillSlots_units (limit : Nat) (s : SchedState) :
    schedUnits (fillSlots limit s) = schedUnits s := by
  have h := fillFrom_append limit s.pending s.running
  simp only [schedUnits, fillSlots, List.append_assoc, h]

theorem completeOne_units_perm (c : Nat) (s : SchedState) :
    (schedUnits (completeOne c s)).Perm (schedUnits s) := by
  rcases hr : s.running with _ | ⟨r, rs⟩
  · simp [completeOne, hr]
  · have hk : c % (r :: rs).length < (r :: rs).length :=
      Nat.mod_lt _ (by simp)
    have hdec : (r :: rs).take (c % (r :: rs).length)
        ++ (r :: rs).getD (c % (r :: rs).length) 0
          :: (r :: rs).drop (c % (r :: rs).length + 1) = r :: rs := by
      rw [List.getD_eq_getElem _ 0 hk, List.getElem_cons_drop,
        List.take_append_drop]
    have hperm : ((r :: rs).getD (c % (r :: rs).length) 0
        :: ((r :: rs).take (c % (r :: rs).length)
            ++ (r :: rs).drop (c % (r :: rs).length + 1))).Perm (r :: rs) := by
      conv_rhs => rw [← hdec]
      exact List.perm_middle.symm
    have h2 := (List.Perm.append_left s.finished hperm).append_right s.pending
    have hgoal : schedUnits (completeOne c s)
        = s.finished ++ ((r :: rs).getD (c % (r :: rs).length) 0
            :: ((r :: rs).take (c % (r :: rs).length)
              ++ (r :: rs).drop (c % (r :: rs).length + 1))) ++ s.pending := by
      simp [completeOne, hr, schedUnits, List.append_assoc]
    rw [hgoal, show schedUnits s = s.finished ++ (r :: rs) ++ s.pending by
      simp [schedUnits, hr]]
    exact h2

theorem schedStep_units_perm (limit c : Nat) (s : SchedState) :
    (schedUnits (schedStep limit c s)).Perm (schedUnits s) := by
  unfold schedStep
  exact (completeOne_units_perm c (fillSlots limit s)).trans
    (by rw [fillSlots_units limit s])

/-- Invariant transport along every instant of a dispatch run. -/
theorem schedStates_invariant (limit : Nat) (P : SchedState → Prop)
    (hfill : ∀ s, P s → P (fillSlots limit s))
    (hcomp : ∀ c s, P s → P (completeOne c s)) :
    ∀ (choices : List Nat) (s : SchedState), P s →
      ∀ t ∈ schedStates limit choices s, P t := by
  intro choices
  induction choices with
  | nil =>
    intro s hs t ht
    simp [schedStates] at ht
    subst ht
    exact hfill s hs
  | cons c cs ih =>
    intro s hs t ht
    simp only [schedStates, List.mem_cons] at ht
    rcases ht with h1 | h2 | h3
    · subst h1; exact hfill s hs
    · subst h2; exact hcomp c _ (hfill s hs)
    · exact ih _ (hcomp c _ (hfill s hs)) t h3

/-- C2: at every instant of the bounded dispatch, at most `maxJobs` units
are in flight; and with `maxJobs = 1` execution is strictly sequential: at
most one unit runs at a time and completed, running and queued units always
form the submission order unchanged — so unit `i + 1` cannot start before
unit `i` completes, and completions occur in submission order. -/
theorem c2_bounded_concurrency (taskFiles : List String) (maxJobs : Nat)
    (choices : List Nat) (t : SchedState)
    (ht : t ∈ schedStates maxJobs choices (schedInit taskFiles)) :
    t.running.length ≤ maxJobs
    ∧ (maxJobs = 1 →
        t.finished ++ t.running ++ t.pending = List.range taskFiles.length
        ∧ t.running.length ≤ 1) := by
  constructor
  · refine schedStates_invariant maxJobs (fun s => s.running.length ≤ maxJobs)
      ?_ ?_ choices (schedInit taskFiles) ?_ t ht
    · intro s hs
      exact fillSlots_running_le maxJobs s hs
    · intro c s hs
      exact le_trans (completeOne_running_le c s) hs
    · simp [schedInit]
  · intro h1
    subst h1
    refine schedStates_invariant 1
      (fun s => s.finished ++ s.running ++ s.pending
          = List.range taskFiles.length ∧ s.running.length ≤ 1)
      ?_ ?_ choices (schedInit taskFiles) ?_ t ht
    · intro s hs
      have hu := fillSlots_units 1 s
      simp only [schedUnits] at hu
      exact ⟨hu.trans hs.1, fillSlots_running_le 1 s hs.2⟩
    · intro c s hs
      rcases hr : s.running with _ | ⟨r, rs⟩
      · rw [completeOne_of_running_nil c s hr]
        exact hs
      · have hrs : rs = [] := by
          have := hs.2
          rw [hr] at this
          simpa using this
        subst hrs
        refine ⟨?_, by simp [completeOne, hr, Nat.mod_one]⟩
        have h3 := hs.1
        rw [hr] at h3
        simpa [completeOne, hr, Nat.mod_one] using h3
    · simp [schedInit]

/-- Closed instance of `c2_bounded_concurrency` at the first instant of a
two-unit sequential dispatch. -/
theorem c2_bounded_concurrency_witness :
    fillSlots 1 (schedInit ["tasks/a/task.md", "tasks/b/task.md"])
      ∈ schedStates 1 [0] (schedInit ["tasks/a/task.md", "tasks/b/task.md"])
    ∧ (fillSlots 1 (schedInit ["tasks/a/task.md", "tasks/b/task.md"])).running.length ≤ 1 := by
  refine ⟨by decide, ?_⟩
  exact (c2_bounded_concurrency ["tasks/a/task.md", "tasks/b/task.md"] 1 [0]
    _ (by decide)).1

/-! ### Helper lemmas: completion of the dispatch and result assembly -/

theorem fillSlots_of_pending_nil (limit : Nat) (s : SchedState)
    (hp : s.pending = []) : fillSlots limit s = s := by
  rcases s with ⟨pend, run, fin⟩
  simp only at hp
  subst hp
  simp [fillSlots, fillFrom]

theorem schedStep_done (limit c : Nat) (s : SchedState)
    (hr : s.running = []) (hp : s.pending = []) : schedStep limit c s = s := by
  unfold schedStep
  rw [fillSlots_of_pending_nil limit s hp, completeOne_of_running_nil c s hr]

theorem schedStep_finished_length (limit c : Nat) (s : SchedState)
    (hl : 1 ≤ limit) (hne : ¬ (s.running = [] ∧ s.pending = [])) :
    (schedStep limit c s).finished.length = s.finished.length + 1 := by
  have hfill : (fillSlots limit s).running ≠ [] :=
    fillFrom_fst_ne_nil limit hl s.running s.pending hne
  unfold schedStep
  rw [completeOne_finished_length c (fillSlots limit s) hfill,
    fillSlots_finished]

theorem schedFinal_units_perm (limit : Nat) :
    ∀ (choices : List Nat) (s : SchedState),
      (schedUnits (schedFinal limit choices s)).Perm (schedUnits s) := by
  intro choices
  induction choices with
  | nil => intro s; simp [schedFinal]
  | cons c cs ih =>
    intro s
    exact (ih (schedStep limit c s)).trans (schedStep_units_perm limit c s)

theorem schedFinal_completes (limit : Nat) (hl : 1 ≤ limit) :
    ∀ (choices : List Nat) (s : SchedState),
      (schedUnits s).length ≤ s.finished.length + choices.length →
      (schedFinal limit choices s).finished.length = (schedUnits s).length
      ∧ (schedFinal limit choices s).running = []
      ∧ (schedFinal limit choices s).pending = [] := by
  intro choices
  induction choices with
  | nil =>
    intro s hle
    simp only [List.length_nil, Nat.add_zero] at hle
    have hlen : (schedUnits s).length
        = s.finished.length + s.running.length + s.pending.length := by
      simp only [schedUnits, List.length_append]
    simp only [schedFinal]
    refine ⟨by omega, ?_, ?_⟩
    · have h0 : s.running.length = 0 := by omega
      exact List.length_eq_zero.mp h0
    · have h0 : s.pending.length = 0 := by omega
      exact List.length_eq_zero.mp h0
  | cons c cs ih =>
    intro s hle
    simp only [List.length_cons] at hle
    by_cases hdone : s.running = [] ∧ s.pending = []
    · rw [schedFinal, schedStep_done limit c s hdone.1 hdone.2]
      apply ih s
      have hlen : (schedUnits s).length = s.finished.length := by
        simp only [schedUnits, hdone.1, hdone.2, List.append_nil]
      omega
    · have hstep := schedStep_finished_length limit c s hl hdone
      have hunits : (schedUnits (schedStep limit c s)).length
          = (schedUnits s).length :=
        (schedStep_units_perm limit c s).length_eq
      have h2 := ih (schedStep limit c s) (by rw [hunits]; omega)
      rw [schedFinal]
      rw [hunits] at h2
      exact h2

theorem schedFinal_perm (limit : Nat) (hl : 1 ≤ limit)
    (taskFiles : List String) (choices : List Nat)
    (hc : taskFiles.length ≤ choices.length) :
    ((schedFinal limit choices (schedInit taskFiles)).finished).Perm
      (List.range taskFiles.length) := by
  have hinit : schedUnits (schedInit taskFiles)
      = List.range taskFiles.length := by
    simp [schedUnits, schedInit]
  have hcomp := schedFinal_completes limit hl choices (schedInit taskFiles)
    (by rw [hinit]; simp [schedInit]; omega)
  have hperm := schedFinal_units_perm limit choices (schedInit taskFiles)
  rw [hinit] at hperm
  have hfin : schedUnits (schedFinal limit choices (schedInit taskFiles))
      = (schedFinal limit choices (schedInit taskFiles)).finished := by
    simp [schedUnits, hcomp.2.1, hcomp.2.2]
  rw [hfin] at hperm
  exact hperm

theorem promFold_length (f : Nat → TaskResult) :
    ∀ (order : List Nat) (arr : List (Option TaskResult)),
      (order.foldl (fun a i => a.set i (some (f i))) arr).length
        = arr.length := by
  intro order
  induction order with
  | nil => intro arr; rfl
  | cons i rest ih =>
    intro arr
    simp only [List.foldl_cons]
    rw [ih (arr.set i (some (f i))), List.length_set]

theorem promFold_getElem (f : Nat → TaskResult) :
    ∀ (order : List Nat) (arr : List (Option TaskResult)) (j : Nat),
      j < arr.length →
      (order.foldl (fun a i => a.set i (some (f i))) arr)[j]?
        = if j ∈ order then some (some (f j)) else arr[j]? := by
  intro order
  induction order with
  | nil => intro arr j hj; simp
  | cons i rest ih =>
    intro arr j hj
    simp only [List.foldl_cons]
    rw [ih (arr.set i (some (f i))) j (by simpa using hj)]
    by_cases hji : j = i
    · subst hji
      by_cases hjr : j ∈ rest
      · simp [hjr]
      · simp [hjr, List.getElem?_set_eq_of_lt _ hj]
    · by_cases hjr : j ∈ rest
      · simp [hjr]
      · simp [hjr, hji, List.getElem?_set_ne (Ne.symm hji)]

theorem promiseAllAssemble_eq (n : Nat) (order : List Nat)
    (f : Nat → TaskResult) (hcov : ∀ j, j < n → j ∈ order) :
    promiseAllAssemble n order f
      = (List.range n).map (fun i => some (f i)) := by
  apply List.ext_getElem?
  intro j
  by_cases hj : j < n
  · have h1 := promFold_getElem f order (List.replicate n none) j
      (by simpa using hj)
    unfold promiseAllAssemble
    rw [h1, if_pos (hcov j hj), List.getElem?_map,
      List.getElem?_eq_getElem (by simpa using hj), List.getElem_range]
    rfl
  · have h1 : n ≤ j := by omega
    have hlen : (promiseAllAssemble n order f).length = n := by
      unfold promiseAllAssemble
      rw [promFold_length, List.length_replicate]
    rw [List.getElem?_eq_none (by rw [hlen]; omega),
      List.getElem?_eq_none (by simp; omega)]

theorem range_map_runTaskAt (taskFiles : List String) (env : String → RunEnv) :
    (List.range taskFiles.length).map (fun i => runTaskAt taskFiles env i)
      = taskFiles.map (fun taskFile =>
          runTask taskFile (taskLogFile taskFile) (env taskFile)) := by
  apply List.ext_getElem
  · simp
  · intro i h1 h2
    simp only [List.getElem_map, List.getElem_range]
    simp only [runTaskAt]
    rw [List.getD_eq_getElem taskFiles "" (by simpa using h2)]

/-- C6: whatever order concurrently executing units complete in (any
`choices`), the assembled results array of `executeWithConcurrency` lists
each unit's outcome at its submission index — it equals the submission-order
results — and `executeTasks` submits its collected task files sorted in
ascending lexicographic order. -/
theorem c6_submission_order (taskFiles : List String) (env : String → RunEnv)
    (maxJobs : Nat) (choices : List Nat) (outputDir : String) (d : DirEnv) :
    (1 ≤ maxJobs → taskFiles.length ≤ choices.length →
      executeWithSchedule taskFiles env maxJobs choices
        = (executeWithConcurrency taskFiles env maxJobs).results.map some)
    ∧ List.Sorted (· ≤ ·) (gatherTaskFiles outputDir d) := by
  constructor
  · intro hmax hlen
    have hperm := schedFinal_perm maxJobs hmax taskFiles choices hlen
    have hcov : ∀ j, j < taskFiles.length →
        j ∈ (schedFinal maxJobs choices (schedInit taskFiles)).finished := by
      intro j hj
      rw [hperm.mem_iff]
      simpa using hj
    unfold executeWithSchedule
    rw [promiseAllAssemble_eq taskFiles.length _ _ hcov]
    simp only [executeWithConcurrency]
    rw [← range_map_runTaskAt taskFiles env, List.map_map]
    rfl
  · exact List.sorted_insertionSort (· ≤ ·) _

/-- Closed instance of `c6_submission_order` on a two-unit dispatch with an
out-of-order completion schedule. -/
theorem c6_submission_order_witness :
    (1 : Nat) ≤ 2
    ∧ (["tasks/a/task.md", "tasks/b/task.md"] : List String).length
        ≤ ([1, 0] : List Nat).length
    ∧ executeWithSchedule ["tasks/a/task.md", "tasks/b/task.md"]
        (fun _ => sampleEnv) 2 [1, 0]
      = (executeWithConcurrency ["tasks/a/task.md", "tasks/b/task.md"]
          (fun _ => sampleEnv) 2).results.map some := by
  refine ⟨by decide, by decide, ?_⟩
  exact (c6_submission_order ["tasks/a/task.md", "tasks/b/task.md"]
    (fun _ => sampleEnv) 2 [1, 0] "tasks" ⟨true, [], fun _ => false,
      fun _ => false⟩).1 (by decide) (by decide)

end CodeSweep
